import Mathlib

set_option maxHeartbeats 1000000

/-!
Verification development for the `gifs.py` media-normalization pipeline
(`src/static/gifs/gifs.py`): a signature-based file-type detector, a
filename cleaner, an ffmpeg conversion adapter, and a batch orchestrator.
File contents are modelled as lists of bytes (`List Nat`), filenames as
lists of characters, and the directory as an association list from names
to contents.  External effects (ffmpeg exit status, filesystem operation
failures) are supplied by an explicit per-file environment.
-/

namespace Punchdrunk

/-- Filenames are modelled as lists of characters. -/
abbrev FName := List Char

/-- The type tags returned by `detect_file_type` in `gifs.py`. -/
inductive FileType where
  | gif | html | text_error | text_file
  | mp4 | webm | avi | mov
  | png | jpeg | webp | apng
  | unknown
deriving DecidableEq, Repr

/-- ASCII bytes of a string literal, for the textual signatures. -/
def asciiBytes (s : String) : List Nat := s.data.map Char.toNat

def gif87Sig : List Nat := asciiBytes "GIF87a"

def gif89Sig : List Nat := asciiBytes "GIF89a"

def doctypeSig : List Nat := asciiBytes "<!DOCTYPE"

def htmlSig : List Nat := asciiBytes "<html"

def textErrorSig : List Nat := asciiBytes "This content is no longer"

def importSig : List Nat := asciiBytes "import "

def shebangSig : List Nat := asciiBytes "#!/usr/bin"

def commentSig : List Nat := asciiBytes "# "

def ftypSig : List Nat := asciiBytes "ftyp"

/-- EBML magic `1A 45 DF A3` (WebM). -/
def webmSig : List Nat := [0x1a, 0x45, 0xdf, 0xa3]

def riffSig : List Nat := asciiBytes "RIFF"

def aviSig : List Nat := asciiBytes "AVI "

def moovSig : List Nat := asciiBytes "moov"

def mdatSig : List Nat := asciiBytes "mdat"

def qtSig : List Nat := asciiBytes "qt"

/-- Full 8-byte PNG signature `89 50 4E 47 0D 0A 1A 0A`. -/
def pngSig : List Nat := [0x89, 0x50, 0x4e, 0x47, 0x0d, 0x0a, 0x1a, 0x0a]

/-- The shorter 4-byte prefix `89 50 4E 47` used by the APNG branch. -/
def pngShortSig : List Nat := [0x89, 0x50, 0x4e, 0x47]

def jpegSig : List Nat := [0xff, 0xd8, 0xff]

def webpSig : List Nat := asciiBytes "WEBP"

def acTLSig : List Nat := asciiBytes "acTL"

/-- Python's `pat in chunk` substring test on byte strings. -/
def hasSub (pat : List Nat) : List Nat → Bool
  | [] => pat.isPrefixOf ([] : List Nat)
  | x :: xs => pat.isPrefixOf (x :: xs) || hasSub pat xs

/-- Shallow embedding of `detect_file_type` (gifs.py lines 5-72) on the
byte contents of a readable file.  `header` is the 32-byte leading read;
the MOV branch re-reads 256 bytes and the APNG branch 1024 bytes, here
`content.take 256` / `content.take 1024`.  The chain order is the code's. -/
def detect_file_type (content : List Nat) : FileType :=
  let header := content.take 32
  if gif87Sig.isPrefixOf header = true ∨ gif89Sig.isPrefixOf header = true then .gif
  else if doctypeSig.isPrefixOf header = true ∨ htmlSig.isPrefixOf header = true then .html
  else if textErrorSig.isPrefixOf header = true then .text_error
  else if importSig.isPrefixOf header = true ∨ shebangSig.isPrefixOf header = true ∨
      commentSig.isPrefixOf header = true then .text_file
  else if 8 ≤ header.length ∧ (header.drop 4).take 4 = ftypSig then .mp4
  else if webmSig.isPrefixOf header = true then .webm
  else if riffSig.isPrefixOf header = true ∧ 12 ≤ header.length ∧
      (header.drop 8).take 4 = aviSig then .avi
  else if hasSub moovSig (content.take 256) = true ∨ hasSub mdatSig (content.take 256) = true ∨
      (hasSub ftypSig (content.take 256) = true ∧ hasSub qtSig (content.take 256) = true) then .mov
  else if pngSig.isPrefixOf header = true then .png
  else if jpegSig.isPrefixOf header = true then .jpeg
  else if riffSig.isPrefixOf header = true ∧ 12 ≤ header.length ∧
      (header.drop 8).take 4 = webpSig then .webp
  else if pngShortSig.isPrefixOf header = true ∧ hasSub acTLSig (content.take 1024) = true then .apng
  else .unknown

/-- Python's `str.rfind` helper: index of the last occurrence of `c`,
`-1` when absent. -/
def rfindAux (c : Char) : List Char → Nat → Int → Int
  | [], _, acc => acc
  | x :: xs, i, acc => rfindAux c xs (i + 1) (if x = c then (i : Int) else acc)

def rfind (l : List Char) (c : Char) : Int := rfindAux c l 0 (-1)

/-- Shallow embedding of `posixpath.splitext` as used by
`os.path.splitext` in `clean_filename`: the extension starts at the last
dot after the last separator, provided some character strictly between
them is not a dot (so leading dots do not start an extension). -/
def splitext (p : FName) : FName × FName :=
  let sepIndex := rfind p '/'
  let dotIndex := rfind p '.'
  if sepIndex < dotIndex then
    if ((p.drop (sepIndex + 1).toNat).take (dotIndex.toNat - (sepIndex + 1).toNat)).any
        (fun ch => ch ≠ '.') then
      (p.take dotIndex.toNat, p.drop dotIndex.toNat)
    else (p, [])
  else (p, [])

/-- Fuelled form of the `while True` loop in `clean_filename`
(gifs.py lines 74-83); each iteration with a nonempty extension strictly
shortens the name, so `name.length` fuel always suffices. -/
def cleanAux : Nat → FName → FName
  | 0, name => name
  | fuel + 1, name =>
    let s := splitext name
    if s.2 = [] then name else cleanAux fuel s.1

/-- Shallow embedding of `clean_filename` (gifs.py lines 74-83). -/
def clean_filename (filename : FName) : FName := cleanAux filename.length filename

/-- The directory state: an association list from file names to byte
contents, one entry per regular file in the folder. -/
abbrev FS := List (FName × List Nat)

/-- File lookup; `none` models a nonexistent path. -/
def lookupFS : FS → FName → Option (List Nat)
  | [], _ => none
  | (k, v) :: fs, n => if k = n then some v else lookupFS fs n

/-- Deleting a path (`unlink`, and the removal half of a rename). -/
def removeFS (fs : FS) (n : FName) : FS := fs.filter (fun e => ¬ e.1 = n)

/-- Creating or overwriting a path with the given contents. -/
def setFS (fs : FS) (n : FName) (c : List Nat) : FS := (n, c) :: removeFS fs n

/-- The character list of `".gif"`. -/
def gifExt : FName := ['.', 'g', 'i', 'f']

/-- The character list of `".tmp.gif"`, the temp suffix in `convert_to_gif`. -/
def tmpGifExt : FName := ['.', 't', 'm', 'p', '.', 'g', 'i', 'f']

/-- Candidate name proposed at step `k` of the collision loop:
`base.gif` for `k = 0`, `base_k.gif` for `k ≥ 1`. -/
def candName (base : FName) (k : Nat) : FName :=
  if k = 0 then base ++ gifExt else base ++ '_' :: ((Nat.repr k).data ++ gifExt)

/-- Fuelled form of the collision-resolution `while` loop
(gifs.py lines 169-176): while an entry exists at `current` and `current`
is not the source file itself, propose `base_counter.gif` and increment
`counter`.  Returns `none` only on fuel exhaustion. -/
def resolveLoop (fs : FS) (file base : FName) : Nat → Nat → FName → Option FName
  | 0, _, _ => none
  | fuel + 1, counter, current =>
    if (lookupFS fs current).isSome ∧ current ≠ file then
      resolveLoop fs file base fuel (counter + 1) (base ++ '_' :: ((Nat.repr counter).data ++ gifExt))
    else some current

/-- The collision loop started as in the code: `counter = 1`,
`final_name = f"\x7bclean_name\x7d.gif"`, with fuel `fs.length + 2`
(proved sufficient below). -/
def resolveTarget (fs : FS) (file base : FName) : Option FName :=
  resolveLoop fs file base (fs.length + 2) 1 (base ++ gifExt)

/-- Total version of `resolveTarget` used by the orchestrator; the
default is never taken since the fuel is sufficient. -/
def resolveTargetD (fs : FS) (file base : FName) : FName :=
  (resolveTarget fs file base).getD (base ++ gifExt)

/-- Per-file external-world outcomes: whether the initial read raises,
the ffmpeg exit status, what ffmpeg leaves at its output path, and
whether `os.replace`, `Path.rename`, `Path.unlink` raise. -/
structure Env where
  readFails : Bool
  ffmpegExit : Nat
  ffmpegWrites : Option (List Nat)
  replaceFails : Bool
  renameFails : Bool
  deleteFails : Bool
deriving Repr

/-- The four run counters of `process_folder`. -/
structure Stats where
  converted : Nat
  renamed : Nat
  skipped : Nat
  failed : Nat
deriving DecidableEq, Repr

/-- Sum of the four counters. -/
def Stats.total (s : Stats) : Nat := s.converted + s.renamed + s.skipped + s.failed

/-- Pointwise order on the counters: `s` is below `t` in every field. -/
def Stats.le (s t : Stats) : Prop :=
  s.converted ≤ t.converted ∧ s.renamed ≤ t.renamed ∧ s.skipped ≤ t.skipped ∧ s.failed ≤ t.failed

/-- The four review buckets accumulated by `process_folder`. -/
structure Buckets where
  html : List FName
  text_error : List FName
  text_file : List FName
  unknown : List FName
deriving DecidableEq, Repr

/-- Orchestrator state: the directory, the counters and the buckets. -/
structure St where
  fs : FS
  stats : Stats
  buckets : Buckets
deriving Repr

/-- Shallow embedding of `convert_to_gif` (gifs.py lines 85-107).
Same-path calls write to the `.tmp.gif` sibling first and `os.replace`
it over the output only when ffmpeg exited 0; the returned number is the
function's return value (ffmpeg status, or 1 when the replace raises). -/
def convert_to_gif (fs : FS) (input output : FName) (e : Env) : FS × Nat :=
  let samePath := input = output
  let actual := if samePath then output ++ tmpGifExt else output
  let fs1 := match e.ffmpegWrites with
    | some c => setFS fs actual c
    | none => fs
  if samePath ∧ e.ffmpegExit = 0 then
    if e.replaceFails then (fs1, 1)
    else
      match lookupFS fs1 actual with
      | some c => (removeFS (setFS fs1 output c) actual, e.ffmpegExit)
      | none => (fs1, 1)
  else (fs1, e.ffmpegExit)

/-- Convertible video types of the first `elif` branch (gifs.py line 193). -/
def vidTypes : List FileType := [.mp4, .webm, .avi, .mov]

/-- Convertible image types of the second `elif` branch (gifs.py line 209). -/
def imgTypes : List FileType := [.png, .jpeg, .webp, .apng]

/-- Increment one counter, leaving the rest of the state alone. -/
def St.bumpConverted (st : St) : St :=
  { st with stats := { st.stats with converted := st.stats.converted + 1 } }

def St.bumpRenamed (st : St) : St :=
  { st with stats := { st.stats with renamed := st.stats.renamed + 1 } }

def St.bumpSkipped (st : St) : St :=
  { st with stats := { st.stats with skipped := st.stats.skipped + 1 } }

def St.bumpFailed (st : St) : St :=
  { st with stats := { st.stats with failed := st.stats.failed + 1 } }

/-- The conversion arm shared verbatim by the video and image branches
of `process_folder` (gifs.py lines 193-222): call `convert_to_gif`; on
status 0 delete the original when it differs from the target (a deletion
failure only warns) and count `converted`; otherwise count `failed`. -/
def convertStep (st : St) (name finalName : FName) (e : Env) : St :=
  let r := convert_to_gif st.fs name finalName e
  if r.2 = 0 then
    let fs2 := if name ≠ finalName then
        (if e.deleteFails then r.1 else removeFS r.1 name)
      else r.1
    St.bumpConverted { st with fs := fs2 }
  else St.bumpFailed { st with fs := r.1 }

/-- Shallow embedding of the per-file body of `process_folder`
(gifs.py lines 133-224).  A raising read (`e.readFails`) or a vanished
path yields the `None` detection result; bucket types are recorded and
skipped; otherwise the target name is resolved and the file is renamed
(gif) or converted (video/image types).  The final `else st` mirrors the
Python fall-through that no type can reach. -/
def processFile (st : St) (name : FName) (e : Env) : St :=
  let dOpt : Option FileType :=
    if e.readFails then none
    else match lookupFS st.fs name with
      | none => none
      | some content => some (detect_file_type content)
  match dOpt with
  | none => st.bumpSkipped
  | some ft =>
    if ft = .html then
      St.bumpSkipped { st with buckets := { st.buckets with html := st.buckets.html ++ [name] } }
    else if ft = .text_error then
      St.bumpSkipped { st with buckets :=
        { st.buckets with text_error := st.buckets.text_error ++ [name] } }
    else if ft = .text_file then
      St.bumpSkipped { st with buckets :=
        { st.buckets with text_file := st.buckets.text_file ++ [name] } }
    else if ft = .unknown then
      St.bumpSkipped { st with buckets :=
        { st.buckets with unknown := st.buckets.unknown ++ [name] } }
    else
      let cleanName := clean_filename name
      let finalName := resolveTargetD st.fs name cleanName
      if ft = .gif then
        if name ≠ finalName then
          if e.renameFails then st.bumpFailed
          else match lookupFS st.fs name with
            | some c => St.bumpRenamed { st with fs := setFS (removeFS st.fs name) finalName c }
            | none => st.bumpFailed
        else st.bumpSkipped
      else if ft ∈ vidTypes then convertStep st name finalName e
      else if ft ∈ imgTypes then convertStep st name finalName e
      else st

/-- Initial orchestrator state over a directory. -/
def initSt (fs0 : FS) : St := ⟨fs0, ⟨0, 0, 0, 0⟩, ⟨[], [], [], []⟩⟩

/-- Shallow embedding of the main loop of `process_folder`
(gifs.py lines 109-233): the regular files are listed once up front and
each is processed in order, the `i`-th against environment `envf i`. -/
def process_folder (fs0 : FS) (envf : Nat → Env) : St :=
  ((fs0.map Prod.fst).enum).foldl (fun st p => processFile st p.2 (envf p.1)) (initSt fs0)

/-- The orchestrator state after the first `k` listed files, for the
monotonicity statements. -/
def process_folderN (fs0 : FS) (envf : Nat → Env) (k : Nat) : St :=
  (((fs0.map Prod.fst).enum).take k).foldl (fun st p => processFile st p.2 (envf p.1)) (initSt fs0)

/-- Decimal decoding of a digit string; the left inverse that proves
`Nat.repr` injective. -/
def decDigits (l : List Char) : Nat := l.foldl (fun a c => a * 10 + (c.toNat - 48)) 0

/-- A directory entry that is already a correctly named GIF: its bytes
carry a GIF signature and its name equals its normalized target name. -/
def NormalizedGif (p : FName × List Nat) : Prop :=
  (gif87Sig.isPrefixOf p.2 = true ∨ gif89Sig.isPrefixOf p.2 = true) ∧
  p.1 = clean_filename p.1 ++ gifExt

instance (p : FName × List Nat) : Decidable (NormalizedGif p) := by
  unfold NormalizedGif
  infer_instance

/-- Sample GIF contents for the concrete witnesses. -/
def sampleGif : List Nat := asciiBytes "GIF89a sample"

/-- Sample static-PNG contents for the concrete witnesses. -/
def samplePng : List Nat := pngSig ++ [0, 0, 0, 1]

/-- An environment where every external operation succeeds. -/
def okEnv : Env := ⟨false, 0, some [9, 9], false, false, false⟩

/-- An environment where ffmpeg exits with status 3. -/
def ffmpegFailEnv : Env := ⟨false, 3, some [5], false, false, false⟩

/-- An environment where every external operation fails. -/
def badEnv : Env := ⟨true, 1, none, true, true, true⟩

/-! Lemmas about `rfind`, `splitext` and `clean_filename`. -/

theorem rfindAux_lt_of_lt (c : Char) (l : List Char) :
    ∀ (i : Nat) (acc : Int), acc < (i : Int) + l.length → rfindAux c l i acc < (i : Int) + l.length := by
  induction l with
  | nil => intro i acc h; simpa [rfindAux] using h
  | cons x xs ih =>
    intro i acc h
    simp only [rfindAux]
    have hlen : ((x :: xs).length : Int) = (xs.length : Int) + 1 := by
      simp [List.length_cons]
    have hstep : rfindAux c xs (i + 1) (if x = c then (i : Int) else acc) <
        ((i + 1 : Nat) : Int) + xs.length := by
      apply ih
      split <;> push_cast <;> omega
    push_cast at hstep ⊢
    omega

theorem neg_one_le_rfindAux (c : Char) (l : List Char) :
    ∀ (i : Nat) (acc : Int), -1 ≤ acc → -1 ≤ rfindAux c l i acc := by
  induction l with
  | nil => intro i acc h; simpa [rfindAux] using h
  | cons x xs ih =>
    intro i acc h
    simp only [rfindAux]
    apply ih
    split <;> omega

theorem rfind_lt (l : List Char) (c : Char) : rfind l c < (l.length : Int) := by
  have h := rfindAux_lt_of_lt c l 0 (-1) (by omega)
  simpa [rfind] using h

theorem neg_one_le_rfind (l : List Char) (c : Char) : -1 ≤ rfind l c :=
  neg_one_le_rfindAux c l 0 (-1) (le_refl _)

theorem splitext_fst_length_lt (p : FName) (h : (splitext p).2 ≠ []) :
    (splitext p).1.length < p.length := by
  have hdlt : rfind p '.' < (p.length : Int) := rfind_lt p '.'
  have hsep : -1 ≤ rfind p '/' := neg_one_le_rfind p '/'
  unfold splitext at h ⊢
  by_cases h1 : rfind p '/' < rfind p '.'
  · simp only [h1, if_true] at h ⊢
    by_cases h2 : ((p.drop (rfind p '/' + 1).toNat).take
        ((rfind p '.').toNat - (rfind p '/' + 1).toNat)).any (fun ch => ch ≠ '.') = true
    · simp only [h2, if_true] at h ⊢
      simp only [List.length_take]
      omega
    · simp only [eq_false_of_ne_true h2, if_false] at h
      exact absurd rfl h
  · simp only [h1, if_false] at h
    exact absurd rfl h

theorem cleanAux_no_ext (fuel : Nat) :
    ∀ name : FName, name.length ≤ fuel → (splitext (cleanAux fuel name)).2 = [] := by
  induction fuel with
  | zero =>
    intro name h
    have hname : name = [] := List.eq_nil_of_length_eq_zero (Nat.le_zero.mp h)
    subst hname
    decide
  | succ fuel ih =>
    intro name h
    unfold cleanAux
    by_cases hx : (splitext name).2 = []
    · simp only [hx, if_true]
    · simp only [hx, if_false]
      exact ih _ (by have := splitext_fst_length_lt name hx; omega)

/-- C7: `clean_filename` repeatedly removes the trailing extension until
none remains: every result has no remaining extension, and in particular
`clean_filename "clip.mp4.tmp" = "clip"` and
`clean_filename "noext" = "noext"`. -/
theorem clean_filename_strips_all_extensions :
    (∀ name : FName, (splitext (clean_filename name)).2 = []) ∧
    clean_filename "clip.mp4.tmp".data = "clip".data ∧
    clean_filename "noext".data = "noext".data :=
  ⟨fun name => cleanAux_no_ext name.length name (Nat.le_refl _), by decide, by decide⟩

/-- C1, evaluated at the failing input: a file beginning with the full
8-byte PNG signature followed by an `acTL` marker is classified `png`,
never `apng`.  The APNG branch of `detect_file_type` (gifs.py lines
57-62) is unreachable for any file carrying the full signature, because
the plain-PNG check (line 46) already returned. -/
theorem detect_full_png_sig_with_acTL_is_png :
    detect_file_type (pngSig ++ acTLSig) = FileType.png ∧
    detect_file_type (pngSig ++ acTLSig) ≠ FileType.apng := by
  constructor <;> decide

/-! Injectivity of `Nat.repr`, used by the collision-loop analysis. -/

theorem toDigitsCore_append (fuel : Nat) :
    ∀ (n : Nat) (ds : List Char),
      Nat.toDigitsCore 10 fuel n ds = Nat.toDigitsCore 10 fuel n [] ++ ds := by
  induction fuel with
  | zero => intro n ds; simp [Nat.toDigitsCore]
  | succ fuel ih =>
    intro n ds
    simp only [Nat.toDigitsCore]
    by_cases h : n / 10 = 0
    · simp [h]
    · simp only [h, if_false]
      rw [ih (n / 10) (Nat.digitChar (n % 10) :: ds), ih (n / 10) [Nat.digitChar (n % 10)]]
      simp

theorem digitChar_toNat (d : Nat) (h : d < 10) : (Nat.digitChar d).toNat = 48 + d := by
  interval_cases d <;> rfl

theorem decDigits_toDigitsCore (fuel : Nat) :
    ∀ n : Nat, n < fuel → decDigits (Nat.toDigitsCore 10 fuel n []) = n := by
  induction fuel with
  | zero => intro n h; exact absurd h (Nat.not_lt_zero n)
  | succ fuel ih =>
    intro n h
    simp only [Nat.toDigitsCore]
    by_cases h0 : n / 10 = 0
    · have hn : n < 10 := by omega
      simp only [h0, if_true]
      simp only [decDigits, List.foldl_cons, List.foldl_nil, Nat.mod_eq_of_lt hn]
      rw [digitChar_toNat n hn]
      omega
    · simp only [h0, if_false]
      rw [toDigitsCore_append fuel (n / 10) [Nat.digitChar (n % 10)]]
      have hdiv : n / 10 < fuel := by omega
      have hmod : n % 10 < 10 := Nat.mod_lt n (by omega)
      simp only [decDigits] at ih ⊢
      rw [List.foldl_append, ih (n / 10) hdiv]
      simp [digitChar_toNat (n % 10) hmod]
      omega

theorem repr_inj {m n : Nat} (h : Nat.repr m = Nat.repr n) : m = n := by
  have hdata : Nat.toDigits 10 m = Nat.toDigits 10 n := congrArg String.data h
  have hm := decDigits_toDigitsCore (m + 1) m (Nat.lt_succ_self m)
  have hn := decDigits_toDigitsCore (n + 1) n (Nat.lt_succ_self n)
  unfold Nat.toDigits at hdata
  rw [hdata] at hm
  exact hm.symm.trans hn

theorem repr_data_inj {m n : Nat} (h : (Nat.repr m).data = (Nat.repr n).data) : m = n :=
  repr_inj (String.ext h)

theorem candName_inj (base : FName) : Function.Injective (candName base) := by
  intro j k h
  unfold candName at h
  by_cases hj : j = 0 <;> by_cases hk : k = 0
  · omega
  · subst hj
    simp only [if_true, hk, if_false] at h
    have h1 := List.append_cancel_left h
    simp [gifExt] at h1
  · subst hk
    simp only [if_true, hj, if_false] at h
    have h1 := List.append_cancel_left h
    simp [gifExt] at h1
  · simp only [hj, hk, if_false] at h
    have h1 := List.append_cancel_left h
    have h2 : (Nat.repr j).data ++ gifExt = (Nat.repr k).data ++ gifExt := by
      simpa using h1
    exact repr_data_inj (List.append_cancel_right h2)

/-! Lemmas about the filesystem model and the collision loop. -/

theorem lookupFS_isSome_mem (fs : FS) (n : FName) (h : (lookupFS fs n).isSome = true) :
    n ∈ fs.map Prod.fst := by
  induction fs with
  | nil => simp [lookupFS] at h
  | cons e fs ih =>
    obtain ⟨k, v⟩ := e
    by_cases he : k = n
    · simp [he]
    · simp only [lookupFS, he, if_false] at h
      simp only [List.map_cons, List.mem_cons]
      exact Or.inr (ih h)

theorem lookupFS_mem (fs : FS) (n : FName) (c : List Nat) (h : lookupFS fs n = some c) :
    (n, c) ∈ fs := by
  induction fs with
  | nil => simp [lookupFS] at h
  | cons e fs ih =>
    obtain ⟨k, v⟩ := e
    by_cases he : k = n
    · subst he
      simp only [lookupFS, if_true] at h
      obtain rfl : v = c := Option.some.inj h
      exact List.mem_cons_self _ _
    · simp only [lookupFS, he, if_false] at h
      exact List.mem_cons_of_mem _ (ih h)

theorem exists_free_candidate (fs : FS) (base : FName) :
    ∃ j, j ≤ fs.length ∧ lookupFS fs (candName base j) = none := by
  by_contra hcon
  push_neg at hcon
  have hmem : ∀ j, j ≤ fs.length → candName base j ∈ fs.map Prod.fst := by
    intro j hj
    apply lookupFS_isSome_mem
    cases hx : lookupFS fs (candName base j) with
    | none => exact absurd hx (hcon j hj)
    | some c => rfl
  have hnd : ((List.range (fs.length + 1)).map (candName base)).Nodup :=
    List.Nodup.map (candName_inj base) (List.nodup_range _)
  have hsub : ((List.range (fs.length + 1)).map (candName base)) ⊆ fs.map Prod.fst := by
    intro x hx
    simp only [List.mem_map, List.mem_range] at hx
    obtain ⟨j, hj, rfl⟩ := hx
    exact hmem j (by omega)
  have hle := (List.subperm_of_subset hnd hsub).length_le
  simp only [List.length_map, List.length_range] at hle
  omega

theorem resolveLoop_isSome (fs : FS) (file base : FName) :
    ∀ (fuel k : Nat), (∃ d, d < fuel ∧ lookupFS fs (candName base (k + d)) = none) →
      (resolveLoop fs file base fuel (k + 1) (candName base k)).isSome = true := by
  intro fuel
  induction fuel with
  | zero =>
    rintro k ⟨d, hd, _⟩
    omega
  | succ fuel ih =>
    rintro k ⟨d, hd, hnone⟩
    simp only [resolveLoop]
    by_cases hc : (lookupFS fs (candName base k)).isSome = true ∧ candName base k ≠ file
    · rw [if_pos hc]
      have hknew : base ++ '_' :: ((Nat.repr (k + 1)).data ++ gifExt) = candName base (k + 1) := by
        simp [candName]
      rw [hknew]
      apply ih (k + 1)
      rcases Nat.eq_zero_or_pos d with hd0 | hdpos
      · subst hd0
        rw [Nat.add_zero] at hnone
        rw [hnone] at hc
        simp at hc
      · exact ⟨d - 1, by omega, by rw [show k + 1 + (d - 1) = k + d by omega]; exact hnone⟩
    · rw [if_neg hc]
      rfl

/-- C10: the collision-resolution loop terminates: every candidate
carries a strictly larger numeric suffix than the last, the candidates
are pairwise distinct, and only `fs.length` names can exist, so within
`fs.length + 2` iterations the loop reaches a non-existing name or the
source file's own path. -/
theorem resolveTarget_terminates (fs : FS) (file base : FName) :
    (resolveTarget fs file base).isSome = true := by
  obtain ⟨j, hj, hnone⟩ := exists_free_candidate fs base
  unfold resolveTarget
  have h0 : base ++ gifExt = candName base 0 := by simp [candName]
  rw [h0]
  exact resolveLoop_isSome fs file base (fs.length + 2) 0 ⟨j, by omega, by simpa using hnone⟩

theorem resolveLoop_free_or_self (fs : FS) (file base : FName) :
    ∀ (fuel counter : Nat) (current r : FName),
      resolveLoop fs file base fuel counter current = some r →
      lookupFS fs r = none ∨ r = file := by
  intro fuel
  induction fuel with
  | zero => intro counter current r h; simp [resolveLoop] at h
  | succ fuel ih =>
    intro counter current r h
    simp only [resolveLoop] at h
    by_cases hc : (lookupFS fs current).isSome = true ∧ current ≠ file
    · rw [if_pos hc] at h
      exact ih _ _ _ h
    · rw [if_neg hc] at h
      obtain rfl : current = r := by simpa using h
      cases hx : lookupFS fs current with
      | none => exact Or.inl rfl
      | some c =>
        right
        by_contra hne
        exact hc ⟨by simp [hx], hne⟩

/-- C4: target resolution starts from `base.gif` and, while a directory
entry exists at the candidate and is not the source itself, appends `_N`
with `N` counting up from 1: with `a.gif` and `a_1.gif` present and
`a.mp4` the source, base `a` resolves to `a_2.gif`; and any resolved
target names no existing entry unless it is the source itself. -/
theorem resolveTarget_collision_resolution :
    resolveTargetD [("a.gif".data, sampleGif), ("a_1.gif".data, sampleGif),
        ("a.mp4".data, samplePng)] "a.mp4".data "a".data = "a_2.gif".data ∧
    (∀ (fs : FS) (file base r : FName), resolveTarget fs file base = some r →
      lookupFS fs r = none ∨ r = file) :=
  ⟨by decide, fun fs file base r h => resolveLoop_free_or_self fs file base _ _ _ _ h⟩

/-- Witness for the universal part of C4, at the directory of the
concrete collision example. -/
theorem resolveTarget_collision_resolution_witness :
    lookupFS [("a.gif".data, sampleGif), ("a_1.gif".data, sampleGif),
        ("a.mp4".data, samplePng)] "a_2.gif".data = none ∨ "a_2.gif".data = "a.mp4".data :=
  resolveTarget_collision_resolution.2 _ "a.mp4".data "a".data "a_2.gif".data (by decide)

/-! Lemmas about `setFS`, `removeFS` and `convert_to_gif`. -/

theorem lookupFS_remove (fs : FS) (n m : FName) :
    lookupFS (removeFS fs n) m = if m = n then none else lookupFS fs m := by
  induction fs with
  | nil =>
    simp only [removeFS, List.filter_nil, lookupFS]
    split <;> rfl
  | cons e fs ih =>
    obtain ⟨k, v⟩ := e
    by_cases hk : k = n <;> by_cases hm : m = n <;>
      simp_all [removeFS, lookupFS, List.filter_cons]
    rw [if_neg (fun hh : n = m => hm hh.symm)]

theorem lookupFS_set (fs : FS) (n m : FName) (c : List Nat) :
    lookupFS (setFS fs n c) m = if m = n then some c else lookupFS fs m := by
  simp only [setFS, lookupFS, lookupFS_remove]
  by_cases h : n = m
  · subst h
    simp
  · rw [if_neg h, if_neg (fun hh : m = n => h hh.symm), if_neg (fun hh : m = n => h hh.symm)]

theorem append_tmpGifExt_ne (p : FName) : p ++ tmpGifExt ≠ p := by
  intro h
  have hl := congrArg List.length h
  simp [tmpGifExt] at hl

/-- C2: when `convert_to_gif` is called with source and target naming
the same location, ffmpeg writes to the `.tmp.gif` sibling; on a nonzero
ffmpeg exit the original entry is untouched, whatever ffmpeg wrote at
the temporary stays in place, every other entry is untouched, and the
nonzero status is returned as the result, with no retry. -/
theorem convert_to_gif_same_path_failure (fs : FS) (p : FName) (e : Env)
    (h : e.ffmpegExit ≠ 0) :
    (convert_to_gif fs p p e).2 = e.ffmpegExit ∧
    (convert_to_gif fs p p e).2 ≠ 0 ∧
    lookupFS (convert_to_gif fs p p e).1 p = lookupFS fs p ∧
    lookupFS (convert_to_gif fs p p e).1 (p ++ tmpGifExt) =
      (match e.ffmpegWrites with
        | some c => some c
        | none => lookupFS fs (p ++ tmpGifExt)) ∧
    (∀ m, m ≠ p ++ tmpGifExt → lookupFS (convert_to_gif fs p p e).1 m = lookupFS fs m) := by
  have hne := append_tmpGifExt_ne p
  cases hw : e.ffmpegWrites with
  | none =>
    simp only [convert_to_gif, hw, if_pos rfl]
    rw [if_neg (by rintro ⟨-, h0⟩; exact h h0)]
    exact ⟨rfl, h, rfl, rfl, fun m _ => rfl⟩
  | some c =>
    simp only [convert_to_gif, hw, if_pos rfl]
    rw [if_neg (by rintro ⟨-, h0⟩; exact h h0)]
    refine ⟨rfl, h, ?_, ?_, ?_⟩
    · rw [lookupFS_set]
      exact if_neg (fun hp => hne hp.symm)
    · rw [lookupFS_set]
      exact if_pos rfl
    · intro m hm
      rw [lookupFS_set]
      exact if_neg hm

/-- Witness for C2 at a concrete directory: converting `v.gif` onto
itself with ffmpeg exiting 3. -/
theorem convert_to_gif_same_path_failure_witness :
    (convert_to_gif [("v.gif".data, samplePng)] "v.gif".data "v.gif".data ffmpegFailEnv).2 =
      ffmpegFailEnv.ffmpegExit ∧
    (convert_to_gif [("v.gif".data, samplePng)] "v.gif".data "v.gif".data ffmpegFailEnv).2 ≠ 0 ∧
    lookupFS (convert_to_gif [("v.gif".data, samplePng)] "v.gif".data "v.gif".data
        ffmpegFailEnv).1 "v.gif".data = lookupFS [("v.gif".data, samplePng)] "v.gif".data ∧
    lookupFS (convert_to_gif [("v.gif".data, samplePng)] "v.gif".data "v.gif".data
        ffmpegFailEnv).1 ("v.gif".data ++ tmpGifExt) =
      (match ffmpegFailEnv.ffmpegWrites with
        | some c => some c
        | none => lookupFS [("v.gif".data, samplePng)] ("v.gif".data ++ tmpGifExt)) ∧
    (∀ m, m ≠ "v.gif".data ++ tmpGifExt →
      lookupFS (convert_to_gif [("v.gif".data, samplePng)] "v.gif".data "v.gif".data
        ffmpegFailEnv).1 m = lookupFS [("v.gif".data, samplePng)] m) :=
  convert_to_gif_same_path_failure [("v.gif".data, samplePng)] "v.gif".data ffmpegFailEnv
    (by decide)

/-! Statistics lemmas for the orchestrator. -/

theorem Stats.le_refl (s : Stats) : Stats.le s s :=
  ⟨Nat.le_refl _, Nat.le_refl _, Nat.le_refl _, Nat.le_refl _⟩

theorem processFile_stats_step (st : St) (name : FName) (e : Env) :
    (processFile st name e).stats.total = st.stats.total + 1 ∧
    Stats.le st.stats (processFile st name e).stats := by
  unfold processFile
  cases hr : e.readFails with
  | true =>
    simp [St.bumpSkipped, Stats.total, Stats.le]
    omega
  | false =>
    cases hl : lookupFS st.fs name with
    | none =>
      simp [St.bumpSkipped, Stats.total, Stats.le]
      omega
    | some content =>
      simp only [Bool.false_eq_true, if_false]
      cases hft : detect_file_type content
      case html =>
        rw [if_pos rfl]
        simp [St.bumpSkipped, Stats.total, Stats.le]
        omega
      case text_error =>
        rw [if_neg (by decide), if_pos rfl]
        simp [St.bumpSkipped, Stats.total, Stats.le]
        omega
      case text_file =>
        rw [if_neg (by decide), if_neg (by decide), if_pos rfl]
        simp [St.bumpSkipped, Stats.total, Stats.le]
        omega
      case unknown =>
        rw [if_neg (by decide), if_neg (by decide), if_neg (by decide), if_pos rfl]
        simp [St.bumpSkipped, Stats.total, Stats.le]
        omega
      case gif =>
        rw [if_neg (by decide), if_neg (by decide), if_neg (by decide), if_neg (by decide),
          if_pos rfl]
        by_cases hn : name ≠ resolveTargetD st.fs name (clean_filename name)
        · rw [if_pos hn]
          cases hrn : e.renameFails with
          | true =>
            rw [if_pos rfl]
            simp [St.bumpFailed, Stats.total, Stats.le]
            omega
          | false =>
            rw [if_neg (by simp)]
            simp [St.bumpRenamed, Stats.total, Stats.le]
            omega
        · rw [if_neg hn]
          simp [St.bumpSkipped, Stats.total, Stats.le]
          omega
      all_goals
        rw [if_neg (by decide), if_neg (by decide), if_neg (by decide), if_neg (by decide),
          if_neg (by decide)]
        first
        | rw [if_pos (by decide)]
        | rw [if_neg (by decide), if_pos (by decide)]
        unfold convertStep
        by_cases hcr : (convert_to_gif st.fs name (resolveTargetD st.fs name
            (clean_filename name)) e).2 = 0
        · rw [if_pos hcr]
          simp [St.bumpConverted, Stats.total, Stats.le]
          omega
        · rw [if_neg hcr]
          simp [St.bumpFailed, Stats.total, Stats.le]
          omega

theorem foldl_stats_total (envf : Nat → Env) :
    ∀ (l : List (Nat × FName)) (st : St),
      (l.foldl (fun s p => processFile s p.2 (envf p.1)) st).stats.total =
        st.stats.total + l.length := by
  intro l
  induction l with
  | nil => intro st; simp
  | cons p l ih =>
    intro st
    simp only [List.foldl_cons, List.length_cons]
    rw [ih]
    have h := (processFile_stats_step st p.2 (envf p.1)).1
    omega

/-- C5: the four counters `converted`, `renamed`, `skipped`, `failed`
only ever increase during a run, each listed file increments exactly one
of them exactly once (the total rises by exactly one per file while
every counter is monotone), and at the summary their sum equals the
number of listed regular files. -/
theorem stats_partition_counters (fs0 : FS) (envf : Nat → Env) :
    (∀ k, Stats.le (process_folderN fs0 envf k).stats (process_folderN fs0 envf (k + 1)).stats) ∧
    (∀ k, k < fs0.length →
      (process_folderN fs0 envf (k + 1)).stats.total =
        (process_folderN fs0 envf k).stats.total + 1) ∧
    (process_folder fs0 envf).stats.total = fs0.length := by
  refine ⟨?_, ?_, ?_⟩
  · intro k
    unfold process_folderN
    rw [List.take_succ, List.foldl_append]
    cases hx : ((fs0.map Prod.fst).enum)[k]? with
    | none => simp [Stats.le_refl]
    | some p =>
      simp only [Option.toList, List.foldl_cons, List.foldl_nil]
      exact (processFile_stats_step _ _ _).2
  · intro k hk
    unfold process_folderN
    rw [List.take_succ, List.foldl_append]
    have hk2 : k < ((fs0.map Prod.fst).enum).length := by
      rw [List.enum_length, List.length_map]
      exact hk
    rw [List.getElem?_eq_getElem hk2]
    simp only [Option.toList, List.foldl_cons, List.foldl_nil]
    exact (processFile_stats_step _ _ _).1
  · unfold process_folder
    rw [foldl_stats_total]
    simp [initSt, Stats.total, List.enum_length]

/-- Witness for C5 at a one-file directory: processing the first file
raises the counter total from 0 to 1. -/
theorem stats_partition_counters_witness :
    (process_folderN [("a.gif".data, sampleGif)] (fun _ => okEnv) 1).stats.total =
      (process_folderN [("a.gif".data, sampleGif)] (fun _ => okEnv) 0).stats.total + 1 :=
  (stats_partition_counters [("a.gif".data, sampleGif)] (fun _ => okEnv)).2.1 0 (by decide)

/-- C6: per-file errors are isolated: for every directory and every
environment, including ones where each external operation fails, every
listed file receives exactly one recorded outcome and the run reaches
the summary with the counters accounting for all files; a detection
error (a raising read) only increments `skipped` and changes nothing
else. -/
theorem per_file_errors_isolated :
    (∀ (fs0 : FS) (envf : Nat → Env), (process_folder fs0 envf).stats.total = fs0.length) ∧
    (∀ (st : St) (name : FName) (e : Env), e.readFails = true →
      processFile st name e = St.bumpSkipped st) := by
  constructor
  · intro fs0 envf
    unfold process_folder
    rw [foldl_stats_total]
    simp [initSt, Stats.total, List.enum_length]
  · intro st name e he
    simp [processFile, he]

/-- Witness for C6: an all-failing environment still yields the skipped
outcome on a concrete file. -/
theorem per_file_errors_isolated_witness :
    processFile (initSt [("a.gif".data, sampleGif)]) "a.gif".data badEnv =
      St.bumpSkipped (initSt [("a.gif".data, sampleGif)]) :=
  per_file_errors_isolated.2 (initSt [("a.gif".data, sampleGif)]) "a.gif".data badEnv rfl

/-! Idempotence on an already-normalized directory (C3). -/

theorem isPrefixOf_take {p : List Nat} :
    ∀ {l : List Nat} (n : Nat), p.length ≤ n → p.isPrefixOf l = true →
      p.isPrefixOf (l.take n) = true := by
  induction p with
  | nil =>
    intro l n _ _
    cases List.take n l <;> rfl
  | cons a as ih =>
    intro l n hlen h
    cases l with
    | nil => simp [List.isPrefixOf] at h
    | cons b bs =>
      cases n with
      | zero => simp at hlen
      | succ n =>
        simp only [List.take_succ_cons, List.isPrefixOf, Bool.and_eq_true] at h ⊢
        exact ⟨h.1, ih n (by simpa using hlen) h.2⟩

theorem detect_gif_of_sig {c : List Nat}
    (h : gif87Sig.isPrefixOf c = true ∨ gif89Sig.isPrefixOf c = true) :
    detect_file_type c = FileType.gif := by
  simp only [detect_file_type]
  rcases h with h | h
  · rw [if_pos (Or.inl (isPrefixOf_take 32 (by decide) h))]
  · rw [if_pos (Or.inr (isPrefixOf_take 32 (by decide) h))]

theorem resolveTargetD_self (fs : FS) (name : FName)
    (hname : name = clean_filename name ++ gifExt) :
    resolveTargetD fs name (clean_filename name) = name := by
  unfold resolveTargetD resolveTarget
  rw [show clean_filename name ++ gifExt = name from hname.symm]
  rw [show fs.length + 2 = (fs.length + 1) + 1 from rfl]
  rw [resolveLoop]
  rw [if_neg (by simp)]
  rfl

theorem lookupFS_isSome_of_mem (fs : FS) (n : FName) (h : n ∈ fs.map Prod.fst) :
    (lookupFS fs n).isSome = true := by
  induction fs with
  | nil => simp at h
  | cons e fs ih =>
    obtain ⟨k, v⟩ := e
    by_cases hk : k = n
    · simp [lookupFS, hk]
    · simp only [List.map_cons, List.mem_cons] at h
      rcases h with h | h
      · exact absurd h.symm hk
      · simp [lookupFS, hk, ih h]

theorem processFile_normalized_skip (st : St) (name : FName) (e : Env)
    (hall : ∀ p ∈ st.fs, NormalizedGif p) (hmem : name ∈ st.fs.map Prod.fst) :
    processFile st name e = St.bumpSkipped st := by
  cases hr : e.readFails with
  | true => simp [processFile, hr]
  | false =>
    obtain ⟨c, hc⟩ : ∃ c, lookupFS st.fs name = some c := by
      cases hx : lookupFS st.fs name with
      | some c => exact ⟨c, rfl⟩
      | none =>
        have := lookupFS_isSome_of_mem st.fs name hmem
        rw [hx] at this
        simp at this
    have hng : NormalizedGif (name, c) := hall _ (lookupFS_mem _ _ _ hc)
    have hd : detect_file_type c = FileType.gif := detect_gif_of_sig hng.1
    unfold processFile
    rw [hr]
    simp only [Bool.false_eq_true, if_false, hc, hd]
    rw [if_neg (by decide), if_neg (by decide), if_neg (by decide), if_neg (by decide),
      if_pos True.intro]
    rw [resolveTargetD_self st.fs name hng.2]
    rw [if_neg (fun hh : name ≠ name => hh rfl)]

theorem foldl_normalized_skip (fs0 : FS) (envf : Nat → Env)
    (hall : ∀ p ∈ fs0, NormalizedGif p) :
    ∀ (l : List (Nat × FName)) (st : St), st.fs = fs0 →
      (∀ p ∈ l, p.2 ∈ fs0.map Prod.fst) →
      l.foldl (fun s p => processFile s p.2 (envf p.1)) st =
        { st with stats := { st.stats with skipped := st.stats.skipped + l.length } } := by
  intro l
  induction l with
  | nil =>
    intro st hst _
    obtain ⟨fs, stats, buckets⟩ := st
    obtain ⟨a, b, c, d⟩ := stats
    simp
  | cons p l ih =>
    intro st hst hmem
    simp only [List.foldl_cons]
    rw [processFile_normalized_skip st p.2 (envf p.1) (hst ▸ hall)
      (hst ▸ hmem p (List.mem_cons_self p l))]
    rw [ih (St.bumpSkipped st) (by simp [St.bumpSkipped, hst])
      (fun q hq => hmem q (List.mem_cons_of_mem p hq))]
    simp only [St.bumpSkipped, List.length_cons]
    have harith : st.stats.skipped + 1 + l.length = st.stats.skipped + (l.length + 1) := by
      omega
    rw [harith]

/-- C3: for a directory whose regular files are all correctly named GIFs
(GIF signature, name already equal to its normalized target), a run of
the orchestrator performs zero renames, zero conversions and zero
deletions: the directory is unchanged, every file is counted skipped and
all review buckets stay empty; running it again yields the same result. -/
theorem process_folder_idempotent (fs0 : FS) (envf : Nat → Env)
    (hall : ∀ p ∈ fs0, NormalizedGif p) :
    (process_folder fs0 envf).fs = fs0 ∧
    (process_folder fs0 envf).stats = ⟨0, 0, fs0.length, 0⟩ ∧
    (process_folder fs0 envf).buckets = ⟨[], [], [], []⟩ ∧
    (∀ envf2, process_folder (process_folder fs0 envf).fs envf2 = process_folder fs0 envf2) := by
  have hrun : process_folder fs0 envf =
      { initSt fs0 with stats := { (initSt fs0).stats with
          skipped := (initSt fs0).stats.skipped + ((fs0.map Prod.fst).enum).length } } := by
    unfold process_folder
    exact foldl_normalized_skip fs0 envf hall _ (initSt fs0) rfl
      (fun p hp => List.getElem?_mem (List.mem_enum_iff_getElem?.mp hp))
  rw [hrun]
  refine ⟨rfl, ?_, rfl, fun envf2 => rfl⟩
  simp [initSt, List.enum_length]

/-- Witness for C3 at a concrete normalized one-file directory. -/
theorem process_folder_idempotent_witness :
    (process_folder [("a.gif".data, sampleGif)] (fun _ => okEnv)).fs =
      [("a.gif".data, sampleGif)] ∧
    (process_folder [("a.gif".data, sampleGif)] (fun _ => okEnv)).stats = ⟨0, 0, 1, 0⟩ ∧
    (process_folder [("a.gif".data, sampleGif)] (fun _ => okEnv)).buckets = ⟨[], [], [], []⟩ ∧
    (∀ envf2, process_folder (process_folder [("a.gif".data, sampleGif)]
        (fun _ => okEnv)).fs envf2 =
      process_folder [("a.gif".data, sampleGif)] envf2) :=
  process_folder_idempotent [("a.gif".data, sampleGif)] (fun _ => okEnv) (by decide)

/-- C9: `detect_file_type` is total on file contents of any length — all
multi-byte window accesses are modelled by bounds-safe `take`/`drop`, so
no access can fault — a zero-byte file matches no signature and is
classified `unknown` (not a detection error), and the orchestrator
records such a file in the unknown bucket and counts it as skipped, not
failed. -/
theorem detect_total_empty_unknown :
    detect_file_type [] = FileType.unknown ∧
    (∀ (st : St) (name : FName) (e : Env), e.readFails = false →
      lookupFS st.fs name = some [] →
      processFile st name e = St.bumpSkipped { st with buckets :=
        { st.buckets with unknown := st.buckets.unknown ++ [name] } }) := by
  constructor
  · decide
  · intro st name e hr hl
    unfold processFile
    rw [hr]
    simp only [Bool.false_eq_true, if_false, hl]
    rw [show detect_file_type [] = FileType.unknown from by decide]
    rw [if_neg (by decide), if_neg (by decide), if_neg (by decide), if_pos rfl]

/-- Witness for C9: a concrete zero-byte file is skipped into the
unknown bucket. -/
theorem detect_total_empty_unknown_witness :
    processFile (initSt [("e.bin".data, [])]) "e.bin".data okEnv =
      St.bumpSkipped { initSt [("e.bin".data, [])] with buckets :=
        { (initSt [("e.bin".data, [])]).buckets with
          unknown := (initSt [("e.bin".data, [])]).buckets.unknown ++ ["e.bin".data] } } :=
  detect_total_empty_unknown.2 (initSt [("e.bin".data, [])]) "e.bin".data okEnv rfl (by decide)

/-! The conversion outcome for convertible types (C8). -/

theorem processFile_eq_convertStep (st : St) (name : FName) (e : Env)
    (content : List Nat) (ft : FileType)
    (hr : e.readFails = false) (hc : lookupFS st.fs name = some content)
    (hd : detect_file_type content = ft)
    (hft : ft ∈ vidTypes ∨ ft ∈ imgTypes) :
    processFile st name e =
      convertStep st name (resolveTargetD st.fs name (clean_filename name)) e := by
  unfold processFile
  rw [hr]
  simp only [Bool.false_eq_true, if_false, hc, hd]
  rcases hft with hv | hi
  · simp only [vidTypes, List.mem_cons, List.not_mem_nil, or_false] at hv
    rcases hv with rfl | rfl | rfl | rfl <;>
      rw [if_neg (by decide), if_neg (by decide), if_neg (by decide), if_neg (by decide),
        if_neg (by decide), if_pos (by decide)]
  · simp only [imgTypes, List.mem_cons, List.not_mem_nil, or_false] at hi
    rcases hi with rfl | rfl | rfl | rfl <;>
      rw [if_neg (by decide), if_neg (by decide), if_neg (by decide), if_neg (by decide),
        if_neg (by decide), if_neg (by decide), if_pos (by decide)]

theorem convert_to_gif_success_fs (fs : FS) (input output : FName) (e : Env)
    (hok : (convert_to_gif fs input output e).2 = 0) :
    (input ≠ output → ∀ m, m ≠ output →
      lookupFS (convert_to_gif fs input output e).1 m = lookupFS fs m) ∧
    (input = output →
      (lookupFS (convert_to_gif fs input output e).1 output).isSome = true ∧
      ∀ m, m ≠ output → m ≠ output ++ tmpGifExt →
        lookupFS (convert_to_gif fs input output e).1 m = lookupFS fs m) := by
  by_cases hsp : input = output
  · subst hsp
    by_cases hex : e.ffmpegExit = 0
    · unfold convert_to_gif at hok ⊢
      rw [if_pos ⟨rfl, hex⟩] at hok ⊢
      rw [if_pos (rfl : input = input)] at hok ⊢
      cases hrf : e.replaceFails with
      | true => simp [hrf] at hok
      | false =>
        simp only [hrf, Bool.false_eq_true, if_false] at hok ⊢
        split at hok
        next c hlk =>
          have hnetmp : ¬input = input ++ tmpGifExt := fun hh => append_tmpGifExt_ne input hh.symm
          refine ⟨fun hne => absurd rfl hne, fun _ => ⟨?_, ?_⟩⟩
          · simp [lookupFS_remove, lookupFS_set, hnetmp]
          · intro m hm1 hm2
            cases hw : e.ffmpegWrites with
            | none => simp [hw, lookupFS_remove, lookupFS_set, hm1, hm2]
            | some c2 => simp [hw, lookupFS_remove, lookupFS_set, hm1, hm2]
        next hlk => simp at hok
    · exfalso
      unfold convert_to_gif at hok
      rw [if_neg (fun hh => hex hh.2)] at hok
      exact hex hok
  · unfold convert_to_gif at hok ⊢
    rw [if_neg (fun hh => hsp hh.1)] at hok ⊢
    rw [if_neg hsp] at hok ⊢
    refine ⟨fun _ m hm => ?_, fun hh => absurd hh hsp⟩
    cases hw : e.ffmpegWrites with
    | none => rfl
    | some c =>
      simp only [hw]
      rw [lookupFS_set, if_neg hm]

/-- C8 counterexample: converting `a.gif` (actually PNG bytes) onto
itself while a stale sibling `a.gif.tmp.gif` exists in the directory.
The conversion succeeds and is counted, `a.gif.tmp.gif` is neither the
source nor the resolved target, and yet its entry is destroyed by the
temporary-file dance, so the claim that no directory entry other than
source and target is modified by this step is false. -/
theorem convert_success_frame_counterexample :
    (processFile (initSt [("a.gif".data, samplePng), ("a.gif.tmp.gif".data, [1, 2, 3])])
        "a.gif".data okEnv).stats.converted = 1 ∧
    "a.gif.tmp.gif".data ≠ "a.gif".data ∧
    "a.gif.tmp.gif".data ≠ resolveTargetD
        [("a.gif".data, samplePng), ("a.gif.tmp.gif".data, [1, 2, 3])]
        "a.gif".data (clean_filename "a.gif".data) ∧
    lookupFS (processFile (initSt [("a.gif".data, samplePng), ("a.gif.tmp.gif".data, [1, 2, 3])])
        "a.gif".data okEnv).fs "a.gif.tmp.gif".data ≠
      lookupFS [("a.gif".data, samplePng), ("a.gif.tmp.gif".data, [1, 2, 3])]
        "a.gif.tmp.gif".data := by
  refine ⟨by decide, by decide, by decide, by decide⟩

/-- C8 (amended): when conversion of a convertible-type file succeeds,
the orchestrator increments `converted` and only `converted`; it deletes
the original source exactly when the source path differs from the
resolved target (a failing deletion leaves the source in place but does
not downgrade the outcome); and no directory entry other than the
source, the resolved target, and — in the same-path case — the
`.tmp.gif` sibling of the target, is modified by this step. -/
theorem convert_success_outcome (st : St) (name : FName) (e : Env)
    (content : List Nat)
    (hr : e.readFails = false) (hc : lookupFS st.fs name = some content)
    (hft : detect_file_type content ∈ vidTypes ∨ detect_file_type content ∈ imgTypes)
    (hok : (convert_to_gif st.fs name (resolveTargetD st.fs name (clean_filename name)) e).2
      = 0) :
    (processFile st name e).stats = { st.stats with converted := st.stats.converted + 1 } ∧
    (name ≠ resolveTargetD st.fs name (clean_filename name) → e.deleteFails = false →
      lookupFS (processFile st name e).fs name = none) ∧
    (name ≠ resolveTargetD st.fs name (clean_filename name) → e.deleteFails = true →
      lookupFS (processFile st name e).fs name = lookupFS st.fs name) ∧
    (name = resolveTargetD st.fs name (clean_filename name) →
      (lookupFS (processFile st name e).fs name).isSome = true) ∧
    (name ≠ resolveTargetD st.fs name (clean_filename name) →
      ∀ m, m ≠ name → m ≠ resolveTargetD st.fs name (clean_filename name) →
      lookupFS (processFile st name e).fs m = lookupFS st.fs m) ∧
    (name = resolveTargetD st.fs name (clean_filename name) →
      ∀ m, m ≠ name →
      m ≠ resolveTargetD st.fs name (clean_filename name) ++ tmpGifExt →
      lookupFS (processFile st name e).fs m = lookupFS st.fs m) := by
  have hbridge := processFile_eq_convertStep st name e content _ hr hc rfl hft
  rw [hbridge]
  unfold convertStep
  rw [if_pos hok]
  have hcfs := convert_to_gif_success_fs st.fs name
    (resolveTargetD st.fs name (clean_filename name)) e hok
  refine ⟨rfl, ?_, ?_, ?_, ?_, ?_⟩
  · intro hne hdel
    rw [if_pos hne, hdel]
    simp only [Bool.false_eq_true, if_false, St.bumpConverted]
    rw [lookupFS_remove, if_pos rfl]
  · intro hne hdel
    rw [if_pos hne, hdel]
    simp only [if_true, St.bumpConverted]
    exact hcfs.1 hne name (fun hh => hne hh)
  · intro heq
    rw [if_neg (fun hh => hh heq)]
    simp only [St.bumpConverted]
    nth_rewrite 4 [heq]
    exact (hcfs.2 heq).1
  · intro hne m hm1 hm2
    rw [if_pos hne]
    cases hdel : e.deleteFails with
    | true =>
      simp only [if_true, St.bumpConverted]
      exact hcfs.1 hne m hm2
    | false =>
      simp only [Bool.false_eq_true, if_false, St.bumpConverted]
      rw [lookupFS_remove, if_neg hm1]
      exact hcfs.1 hne m hm2
  · intro heq m hm1 hm3
    rw [if_neg (fun hh => hh heq)]
    simp only [St.bumpConverted]
    exact (hcfs.2 heq).2 m (fun hh => hm1 (hh.trans heq.symm)) hm3

/-- Witness for the amended C8 at the counterexample directory. -/
theorem convert_success_outcome_witness :
    (processFile (initSt [("a.gif".data, samplePng), ("a.gif.tmp.gif".data, [1, 2, 3])])
        "a.gif".data okEnv).stats =
      { (initSt [("a.gif".data, samplePng), ("a.gif.tmp.gif".data, [1, 2, 3])]).stats with
        converted := (initSt [("a.gif".data, samplePng),
          ("a.gif.tmp.gif".data, [1, 2, 3])]).stats.converted + 1 } :=
  (convert_success_outcome
    (initSt [("a.gif".data, samplePng), ("a.gif.tmp.gif".data, [1, 2, 3])])
    "a.gif".data okEnv samplePng rfl (by decide) (by decide) (by decide)).1

end Punchdrunk
